import Mathlib

/-!
Verification development for the rtiles 3-D tile server.

Shallow embedding of the core modules:
* `src/cache.rs`  — size-weighted in-memory body cache with async loader
  (latest iteration: `CachedNamedFile::open_with_cache(path, meta, cache)`);
* `src/meta.rs`   — metadata (stat) cache;
* `src/stat.rs`   — hierarchical metrics aggregator (`StatTable`);
* `src/access.rs` / `src/model_access.rs` — remote authorization
  (`ModelAccess::check_remote`) and its single-flight decision cache;
* `src/main.rs`   — the tile endpoint handler (`tileset`).

Paths are modelled as strings, byte buffers as lists of bytes, `SystemTime`
as a natural number, and the filesystem / HTTP transport as explicit oracle
functions.  Machine integers (`u64`) are modelled as `Nat`: none of the
verified code performs wrapping arithmetic on them.
-/

namespace RTiles

/-- Filesystem path (`std::path::PathBuf`), modelled as a plain string. -/
abbrev Path := String

deriving instance DecidableEq for Except

/-- I/O error (`std::io::Error`), identified by an error code. -/
structure IoError where
  code : Nat
deriving DecidableEq, Repr

/-- File metadata, from `src/meta.rs` (`struct Meta`): length, optional
modification time (`SystemTime` as `Nat`) and directory flag. -/
structure Meta where
  len : Nat
  modified : Option Nat
  is_dir : Bool
deriving DecidableEq, Repr

/-- Cached body, from `src/cache.rs` (`struct Content`): metadata, MIME type
derived from the file extension, and the in-memory byte buffer. -/
structure Content where
  meta : Meta
  mime_type : Option String
  body : List Nat
deriving DecidableEq, Repr

/-- `u32::MAX`, the weigher limit of the body cache. -/
def u32Max : Nat := 4294967295

/-- Capacity of the body-loader mpsc channel (`mpsc::channel(500)` in
`FileCache::new`). -/
def loaderQueueCapacity : Nat := 500

/-- Lookup in an association list keyed by paths (the `moka::dash::Cache`
store of `FileCache`, observed through `FileCache::get`). -/
def storeGet : List (Path × Content) → Path → Option Content
  | [], _ => none
  | e :: rest, p => if e.1 = p then some e.2 else storeGet rest p

/-- Removal of a key from the store (`moka::dash::Cache::invalidate`). -/
def storeRemove : List (Path × Content) → Path → List (Path × Content)
  | [], _ => []
  | e :: rest, p => if e.1 = p then storeRemove rest p else e :: storeRemove rest p

/-- Body cache state, from `src/cache.rs` (`struct FileCache`): the
path-keyed content store, the pending loader queue (the mpsc channel), and
the byte cap `size` (set to `config.size * 1024 * 1024` in `FileCache::new`). -/
structure FileCache where
  store : List (Path × Content)
  queue : List Path
  size : Nat
deriving DecidableEq, Repr

namespace FileCache

/-- `FileCache::get`. -/
def get (c : FileCache) (path : Path) : Option Content :=
  storeGet c.store path

/-- `FileCache::invalidate`. -/
def invalidate (c : FileCache) (path : Path) : FileCache :=
  { c with store := storeRemove c.store path }

/-- `FileCache::insert`: schedule a file save through `tx.try_send`, which
fails (and changes nothing) when the channel is at capacity. -/
def insert (c : FileCache) (path : Path) : Except Unit FileCache :=
  if c.queue.length < loaderQueueCapacity then
    Except.ok { c with queue := c.queue ++ [path] }
  else
    Except.error ()

end FileCache

/-- Result of `CachedNamedFile::open_with_cache`, from `src/cache.rs`:
either an open on-disk file (`NamedFile` represented by its path) together
with its metadata, or a memory-resident cached body. -/
inductive CachedNamedFile where
  | file (path : Path) (meta : Meta)
  | cached (c : Content)
deriving DecidableEq, Repr

namespace CachedNamedFile

/-- `CachedNamedFile::meta`. -/
def meta : CachedNamedFile → Meta
  | file _ m => m
  | cached c => c.meta

/-- `CachedNamedFile::is_cached`. -/
def is_cached : CachedNamedFile → Bool
  | file _ _ => false
  | cached _ => true

/-- `CachedNamedFile::open` specialised to the `Some(meta)` argument it
receives from `open_with_cache`: `NamedFile::open` succeeds exactly when the
file exists (oracle `fs`), and the metadata is the caller's `meta`. -/
def openFile (fs : Path → Bool) (path : Path) (m : Meta) :
    Except IoError CachedNamedFile :=
  if fs path then Except.ok (CachedNamedFile.file path m)
  else Except.error ⟨2⟩

/-- Tail of `CachedNamedFile::open_with_cache` after the cache probe: open
the file from disk, then enqueue the path for background caching when its
length is within the cache size and the `u32::MAX` weigher limit (the
`try_send` failure is swallowed by `unwrap_or_else`, which only logs). -/
def openAndSchedule (path : Path) (m : Meta) (cache : FileCache)
    (fs : Path → Bool) : Except IoError (CachedNamedFile × FileCache) :=
  match openFile fs path m with
  | Except.error e => Except.error e
  | Except.ok f =>
    let len := f.meta.len
    if len ≤ cache.size ∧ len ≤ u32Max then
      match cache.insert path with
      | Except.ok cache' => Except.ok (f, cache')
      | Except.error _ => Except.ok (f, cache)
    else
      Except.ok (f, cache)

/-- `CachedNamedFile::open_with_cache` from `src/cache.rs`: return the
cached content when its metadata matches the caller's freshness token;
invalidate a stale entry; otherwise open the file from disk and schedule it
for background caching when eligible. -/
def open_with_cache (path : Path) (m : Meta) (cache : FileCache)
    (fs : Path → Bool) : Except IoError (CachedNamedFile × FileCache) :=
  match cache.get path with
  | some cnt =>
    if cnt.meta = m then
      Except.ok (CachedNamedFile.cached cnt, cache)
    else
      openAndSchedule path m (cache.invalidate path) fs
  | none => openAndSchedule path m cache fs

end CachedNamedFile

section CacheSanity

example :
    CachedNamedFile.open_with_cache "a" ⟨3, none, false⟩
      ⟨[("a", ⟨⟨3, none, false⟩, none, [1, 2, 3]⟩)], [], 100⟩ (fun _ => true) =
    Except.ok (CachedNamedFile.cached ⟨⟨3, none, false⟩, none, [1, 2, 3]⟩,
      ⟨[("a", ⟨⟨3, none, false⟩, none, [1, 2, 3]⟩)], [], 100⟩) := by decide

example :
    CachedNamedFile.open_with_cache "a" ⟨3, none, false⟩
      ⟨[], [], 100⟩ (fun _ => true) =
    Except.ok (CachedNamedFile.file "a" ⟨3, none, false⟩, ⟨[], ["a"], 100⟩) := by
  decide

end CacheSanity

/-! ## Metadata cache (`src/meta.rs`) -/

/-- Lookup in the metadata store (`moka::future::Cache::get` of `MetaCache`);
the store holds exactly the unexpired entries, TTL expiry being internal to
the moka collaborator. -/
def mcGet : List (Path × Meta) → Path → Option Meta
  | [], _ => none
  | e :: rest, p => if e.1 = p then some e.2 else mcGet rest p

/-- Insertion into the metadata store (`moka::future::Cache::insert`). -/
def mcInsert (cache : List (Path × Meta)) (path : Path) (m : Meta) :
    List (Path × Meta) :=
  (path, m) :: cache

/-- `MetaCache::metadata` from `src/meta.rs`: return the cached metadata if
present, otherwise stat the filesystem (oracle `fs`, `Meta::from_path`),
insert the result and return it; a stat error is returned as is.  The second
component is the metadata store after the call. -/
def MetaCache.metadata (cache : List (Path × Meta)) (path : Path)
    (fs : Path → Except IoError Meta) :
    Except IoError Meta × List (Path × Meta) :=
  match mcGet cache path with
  | some m => (Except.ok m, cache)
  | none =>
    match fs path with
    | Except.ok m => (Except.ok m, mcInsert cache path m)
    | Except.error e => (Except.error e, cache)

/-! ## Metrics aggregator (`src/stat.rs`) -/

/-- Statistic key from `src/stat.rs` (`struct StatKey`): `object = none`
aggregates over all objects, `model = none` over all models of an object. -/
structure StatKey where
  object : Option String
  model : Option String
deriving DecidableEq, Repr

/-- `StatKey::default()`: the global rollup key `(None, None)`. -/
def StatKey.default : StatKey := ⟨none, none⟩

/-- Statistic metrics from `src/stat.rs` (`struct Metrics`): request count
and request bytes. -/
structure Metrics where
  hits : Nat
  bytes : Nat
deriving DecidableEq, Repr

/-- `Metrics::default()`: zero metrics. -/
def Metrics.default : Metrics := ⟨0, 0⟩

/-- `Metrics::add_assign`: componentwise addition. -/
def Metrics.add (a b : Metrics) : Metrics :=
  ⟨a.hits + b.hits, a.bytes + b.bytes⟩

/-- Statistic record from `src/stat.rs` (`struct Record`). -/
structure Record where
  key : StatKey
  metrics : Metrics
deriving DecidableEq, Repr

/-- The `StatTable` map (`HashMap<StatKey, Metrics>`), as an association
list with at most one entry per key. -/
def StatMap := List (StatKey × Metrics)

/-- `map.entry(key).or_insert(Metrics::default()) += metrics`: add `v` to
the entry for `k`, creating it from the zero metrics when absent. -/
def addTo : List (StatKey × Metrics) → StatKey → Metrics → List (StatKey × Metrics)
  | [], k, v => [(k, Metrics.default.add v)]
  | e :: rest, k, v =>
    if e.1 = k then (e.1, e.2.add v) :: rest else e :: addTo rest k v

/-- `StatTable::get`: the stored metrics for `key`, or zero metrics when the
key is absent. -/
def statGet : List (StatKey × Metrics) → StatKey → Metrics
  | [], _ => Metrics.default
  | e :: rest, k => if e.1 = k then e.2 else statGet rest k

/-- `StatTable::insert` from `src/stat.rs`: when `model` is present an
absent `object` makes the key illegal and the record is dropped, otherwise
the per-object rollup `(object, None)` is updated; when `model` is absent
`rec.key.object.take()` clears the object.  Then the global rollup
`(None, None)` is updated if the (possibly cleared) object is still present,
and finally the entry for the resulting key itself. -/
def StatTable.insert (map : List (StatKey × Metrics)) (rec : Record) :
    List (StatKey × Metrics) :=
  if rec.key.model.isSome then
    if rec.key.object.isNone then
      map
    else
      let map1 := addTo map ⟨rec.key.object, none⟩ rec.metrics
      let map2 :=
        if rec.key.object.isSome then addTo map1 StatKey.default rec.metrics
        else map1
      addTo map2 rec.key rec.metrics
  else
    let key : StatKey := ⟨none, rec.key.model⟩
    let map2 :=
      if key.object.isSome then addTo map StatKey.default rec.metrics
      else map
    addTo map2 key rec.metrics

/-- Draining a sequence of records through the single consumer task of
`Stat::new`: each received record is applied by `StatTable::insert`. -/
def drainAll (map : List (StatKey × Metrics)) (recs : List Record) :
    List (StatKey × Metrics) :=
  recs.foldl StatTable.insert map

/-- Sum of a list of metrics. -/
def msum : List Metrics → Metrics
  | [] => Metrics.default
  | m :: rest => m.add (msum rest)

/-- Sum of the stored metrics over every distinct key having both `object`
and `model` present (the leaf entries). -/
def leafSum (map : List (StatKey × Metrics)) : Metrics :=
  msum ((map.filter (fun e => e.1.object.isSome && e.1.model.isSome)).map
    (fun e => e.2))

/-- Sum of the stored metrics over every distinct key `(Some o, Some m)`
for the given object `o`. -/
def objSum (map : List (StatKey × Metrics)) (o : String) : Metrics :=
  msum ((map.filter (fun e => e.1.object = some o && e.1.model.isSome)).map
    (fun e => e.2))

section StatSanity

example :
    StatTable.insert [] ⟨⟨some "lake", some "first"⟩, ⟨1, 1000⟩⟩ =
      [(⟨some "lake", none⟩, ⟨1, 1000⟩), (⟨none, none⟩, ⟨1, 1000⟩),
       (⟨some "lake", some "first"⟩, ⟨1, 1000⟩)] := by decide

-- the `take()` at src/stat.rs:87: a `(Some o, None)` record only feeds the
-- global rollup, the per-object entry stays absent
example :
    StatTable.insert [] ⟨⟨some "lake", none⟩, ⟨1, 1000⟩⟩ =
      [(⟨none, none⟩, ⟨1, 1000⟩)] := by decide

-- illegal key: record dropped
example :
    StatTable.insert [] ⟨⟨none, some "first"⟩, ⟨1, 1000⟩⟩ = [] := by decide

-- the scenario of the `stat_table` unit test of src/stat.rs
example :
    statGet (drainAll []
      [⟨⟨some "lake", some "first"⟩, ⟨1, 1000⟩⟩,
       ⟨⟨some "lake", some "first"⟩, ⟨1, 1000⟩⟩,
       ⟨⟨some "lake", some "second"⟩, ⟨1, 1000⟩⟩,
       ⟨⟨some "land", some "first"⟩, ⟨1, 1000⟩⟩,
       ⟨⟨some "land", some "first"⟩, ⟨1, 1000⟩⟩,
       ⟨⟨none, some "first"⟩, ⟨1, 1000⟩⟩,
       ⟨⟨none, some "first"⟩, ⟨1, 1000⟩⟩])
      ⟨none, none⟩ = ⟨5, 5000⟩ := by decide

example :
    statGet (drainAll []
      [⟨⟨some "lake", some "first"⟩, ⟨1, 1000⟩⟩,
       ⟨⟨some "lake", some "first"⟩, ⟨1, 1000⟩⟩,
       ⟨⟨some "lake", some "second"⟩, ⟨1, 1000⟩⟩])
      ⟨some "lake", none⟩ = ⟨3, 3000⟩ := by decide

end StatSanity

/-! ## Remote authorization (`src/access.rs`, `src/model_access.rs`) -/

/-- Model access mode from `src/access.rs` (`enum AccessMode`): the only two
verdicts. -/
inductive AccessMode where
  | Granted
  | Denied
deriving DecidableEq, Repr

/-- Access key from `src/model_access.rs` (`struct AccessKey`): optional
object, optional model name, optional session identifier (an absent cookie
gives `SessionId(None)`). -/
structure AccessKey where
  object : Option String
  model : Option String
  session_id : Option String
deriving DecidableEq, Repr

/-- Authorization configuration (`struct AccessConfig`): authority base URL,
TTL/TTI of the decision cache, session cookie name. -/
structure AccessConfig where
  server : String
  cache_ttl : Nat
  cache_tti : Nat
  cookie_name : String
deriving DecidableEq, Repr

/-- The URL built by `ModelAccess::check_remote`: the server URL, then
`/{object}` when the object is present, then `/{model}` when additionally
the model is present. -/
def requestUrl (cfg : AccessConfig) (key : AccessKey) : String :=
  let url := cfg.server
  match key.object with
  | none => url
  | some obj =>
    let url := url ++ "/" ++ obj
    match key.model with
    | none => url
    | some m => url ++ "/" ++ m

/-- The `Cookie` header attached by `check_remote`:
`{cookie_name}={session}` when a session identifier is present. -/
def cookieHeader (cfg : AccessConfig) (key : AccessKey) : Option String :=
  match key.session_id with
  | none => none
  | some id => some (cfg.cookie_name ++ "=" ++ id)

/-- Outcome of `reqwest` `rq.send().await`: a response with an HTTP status
code, a transport error, or expiry of the 5-second client timeout (both of
the latter surface as `Err(_)`). -/
inductive SendResult where
  | ok (status : Nat)
  | transportError
  | timeout
deriving DecidableEq, Repr

/-- Status line of HTTP `200 OK` (`StatusCode::OK`). -/
def statusOk : Nat := 200

/-- `ModelAccess::check_remote` from `src/model_access.rs` (identical logic
in `src/access.rs`): build the authority URL and cookie from the key, issue
the GET through the transport oracle `send`, and map the outcome —
`200 OK` to `Granted`, any other response to `Denied`, a transport error or
timeout to `Denied` (logged, not propagated). -/
def ModelAccess.check_remote (cfg : AccessConfig) (key : AccessKey)
    (send : String → Option String → SendResult) : AccessMode :=
  match send (requestUrl cfg key) (cookieHeader cfg key) with
  | SendResult.ok status =>
    if status = statusOk then AccessMode.Granted else AccessMode.Denied
  | SendResult.transportError => AccessMode.Denied
  | SendResult.timeout => AccessMode.Denied

/-! ## Single-flight decision cache (`ModelAccess::check`)

`check` delegates memoization and request deduplication to
`moka::future::Cache::get_with(key, init)` over the verdict store.  The
interleaving semantics of `get_with` is not part of this repository's
sources, so it is modelled from the spec as a transition system, per key. -/

/-- State of one caller of `check(key)`. -/
inductive CallerSt where
  | idle
  | waiting
  | done (v : AccessMode)
deriving DecidableEq, Repr

/-- Modelled from the spec: state of the decision cache for one fixed
`AccessKey` shared by `n` concurrent callers of `ModelAccess::check` —
missing from `src/` is the body of `moka::future::Cache::get_with`, the
external collaborator providing memoization and single-flight (spec §4.1
step 2).  `entry` is the unexpired store entry for the key, `loading`
records whether some caller currently owns the in-flight load, and
`requests` counts the HTTP requests issued to the authority for this key. -/
structure SFState (n : Nat) where
  entry : Option AccessMode
  loading : Bool
  callers : Fin n → CallerSt
  requests : Nat

/-- Modelled from the spec: transition relation of `check(key)` under
`get_with` (spec §4.1, operation `check`): a caller either returns the
unexpired cached verdict (`hit`), awaits an in-flight load (`joinWait`),
becomes the loader and issues the one authority request (`lead`), or the
in-flight load completes with verdict `v`, storing it and releasing every
waiter with that verdict (`complete`). -/
inductive SFStep {n : Nat} : SFState n → SFState n → Prop where
  | hit (s : SFState n) (i : Fin n) (v : AccessMode) :
      s.callers i = CallerSt.idle → s.entry = some v →
      SFStep s { s with callers := Function.update s.callers i (CallerSt.done v) }
  | joinWait (s : SFState n) (i : Fin n) :
      s.callers i = CallerSt.idle → s.entry = none → s.loading = true →
      SFStep s { s with callers := Function.update s.callers i CallerSt.waiting }
  | lead (s : SFState n) (i : Fin n) :
      s.callers i = CallerSt.idle → s.entry = none → s.loading = false →
      SFStep s { s with
        loading := true,
        callers := Function.update s.callers i CallerSt.waiting,
        requests := s.requests + 1 }
  | complete (s : SFState n) (v : AccessMode) :
      s.loading = true →
      SFStep s { entry := some v,
                 loading := false,
                 callers := fun j =>
                   if s.callers j = CallerSt.waiting then CallerSt.done v
                   else s.callers j,
                 requests := s.requests }

/-- Initial state: no store entry for the key, no in-flight load, all
callers yet to arrive, no authority request issued. -/
def SFState.init (n : Nat) : SFState n :=
  { entry := none, loading := false, callers := fun _ => CallerSt.idle,
    requests := 0 }

/-- States reachable from the initial state. -/
inductive SFReachable {n : Nat} : SFState n → Prop where
  | init : SFReachable (SFState.init n)
  | step {s s' : SFState n} : SFReachable s → SFStep s s' → SFReachable s'

/-! ## Tile endpoint (`src/main.rs`) -/

/-- Metrics record of the stat iteration used by `src/main.rs`
(`Metrics { hits, cached, bytes }`): hit count, memory-cache hit count and
byte count. -/
structure MetricsR where
  hits : Nat
  cached : Nat
  bytes : Nat
deriving DecidableEq, Repr

/-- Record submitted on the metrics channel by the `tileset` route:
`(StatKey::new(Some(object), Some(model)), metrics)`. -/
structure RecordR where
  key : StatKey
  metrics : MetricsR
deriving DecidableEq, Repr

/-- Response of the `tileset` route: a served file with the
`Cache-Control: private, max-age` value, `403 Forbidden`, or
`404 Not Found`. -/
inductive TileResponse where
  | okFile (res : CachedNamedFile) (maxAge : Nat)
  | forbidden
  | notFound
deriving DecidableEq, Repr

/-- The `tileset` route handler from `src/main.rs`, given the verdict of
`access.check` for `(object, model, session)` and the outcome of
`CachedNamedFile::open_with_cache` on the resolved path: on `Denied` respond
`403`; on an open error respond `404`; otherwise submit one metrics record
`(hits = 1, cached = is_cached, bytes = len)` and respond with the file.
The second component lists the records sent on the metrics channel. -/
def tileset (object model : String) (accessMode : AccessMode)
    (openResult : Except IoError CachedNamedFile) (maxAge : Nat) :
    TileResponse × List RecordR :=
  match accessMode with
  | AccessMode.Denied => (TileResponse.forbidden, [])
  | AccessMode.Granted =>
    match openResult with
    | Except.error _ => (TileResponse.notFound, [])
    | Except.ok res =>
      let bytes := res.meta.len
      let cached := if res.is_cached then 1 else 0
      let key : StatKey := ⟨some object, some model⟩
      (TileResponse.okFile res maxAge, [⟨key, ⟨1, cached, bytes⟩⟩])

/-! ## Lemmas about the body cache -/

theorem storeGet_storeRemove (s : List (Path × Content)) (p : Path) :
    storeGet (storeRemove s p) p = none := by
  induction s with
  | nil => rfl
  | cons e rest ih =>
    by_cases h : e.1 = p
    · simpa [storeRemove, h] using ih
    · simp [storeRemove, storeGet, h, ih]

/-- Characterization of the post-miss tail of `open_with_cache`: the result
is the on-disk file with the caller's metadata, the content store is
untouched, and the loader queue gains the path exactly when the file is
within both size limits and the channel has room. -/
theorem openAndSchedule_spec {path : Path} {m : Meta} {cache : FileCache}
    {fs : Path → Bool} {r : CachedNamedFile} {cache' : FileCache}
    (h : CachedNamedFile.openAndSchedule path m cache fs = Except.ok (r, cache')) :
    r = CachedNamedFile.file path m ∧ cache'.store = cache.store ∧
    cache'.size = cache.size ∧
    cache'.queue =
      (if m.len ≤ cache.size ∧ m.len ≤ u32Max ∧
          cache.queue.length < loaderQueueCapacity
       then cache.queue ++ [path] else cache.queue) := by
  unfold CachedNamedFile.openAndSchedule CachedNamedFile.openFile at h
  by_cases hfs : fs path
  · simp only [hfs, if_true, CachedNamedFile.meta] at h
    by_cases helig : m.len ≤ cache.size ∧ m.len ≤ u32Max
    · by_cases hroom : cache.queue.length < loaderQueueCapacity
      · simp only [helig, if_true, FileCache.insert, hroom] at h
        cases h
        simp [helig.1, helig.2, hroom]
      · simp only [helig, if_true, FileCache.insert, hroom, if_neg] at h
        cases h
        simp [helig.1, helig.2, hroom]
    · simp only [helig, if_false] at h
      cases h
      have : ¬ (m.len ≤ cache.size ∧ m.len ≤ u32Max ∧
          cache.queue.length < loaderQueueCapacity) := by
        intro hc
        exact helig ⟨hc.1, hc.2.1⟩
      simp [this]
  · simp [hfs] at h

/-- **C1.** For every `(path, meta)` passed to `open_with_cache`, a
memory-resident (cached) body is returned only when its embedded `Meta`
equals the caller's freshness token `meta`; a stored entry whose `Meta`
differs from `meta` is never returned: it is invalidated (the resulting
store has no entry for the path) and the file is served from disk. -/
theorem open_with_cache_freshness (path : Path) (m : Meta) (cache : FileCache)
    (fs : Path → Bool) (r : CachedNamedFile) (cache' : FileCache)
    (h : CachedNamedFile.open_with_cache path m cache fs =
      Except.ok (r, cache')) :
    (∀ c, r = CachedNamedFile.cached c → c.meta = m) ∧
    (∀ cnt, cache.get path = some cnt → cnt.meta ≠ m →
      r.is_cached = false ∧ cache'.get path = none) := by
  unfold CachedNamedFile.open_with_cache at h
  split at h
  · rename_i cnt hget
    split at h
    · rename_i hm
      cases h
      constructor
      · intro c hc
        cases hc
        exact hm
      · intro cnt' hcnt' hne
        rw [hget] at hcnt'
        cases hcnt'
        exact absurd hm hne
    · rename_i hm
      obtain ⟨hr, hstore, _, _⟩ := openAndSchedule_spec h
      constructor
      · intro c hc
        rw [hr] at hc
        cases hc
      · intro cnt' _ _
        refine ⟨by rw [hr]; rfl, ?_⟩
        show storeGet cache'.store path = none
        rw [hstore]
        exact storeGet_storeRemove cache.store path
  · rename_i hget
    obtain ⟨hr, _, _, _⟩ := openAndSchedule_spec h
    constructor
    · intro c hc
      rw [hr] at hc
      cases hc
    · intro cnt hcnt
      rw [hget] at hcnt
      cases hcnt

theorem open_with_cache_freshness_witness :
    (CachedNamedFile.file "a" ⟨7, none, false⟩).is_cached = false ∧
    FileCache.get ⟨[], ["a"], 100⟩ "a" = none :=
  (open_with_cache_freshness "a" ⟨7, none, false⟩
      ⟨[("a", ⟨⟨5, none, false⟩, none, [9, 9, 9, 9, 9]⟩)], [], 100⟩
      (fun _ => true)
      (CachedNamedFile.file "a" ⟨7, none, false⟩) ⟨[], ["a"], 100⟩
      (by decide)).2
    ⟨⟨5, none, false⟩, none, [9, 9, 9, 9, 9]⟩ (by decide) (by decide)

/-- **C6 (amended).** For every file served from disk by `open_with_cache`,
the path is enqueued for background caching iff the file length is at most
the configured byte cap and at most `u32::MAX` *and* the loader queue holds
fewer than 500 pending paths; when the queue is full the submission is
dropped and the queue is unchanged. -/
theorem open_with_cache_enqueue (path : Path) (m : Meta) (cache : FileCache)
    (fs : Path → Bool) (r : CachedNamedFile) (cache' : FileCache)
    (h : CachedNamedFile.open_with_cache path m cache fs =
      Except.ok (r, cache'))
    (hdisk : r.is_cached = false) :
    cache'.queue =
      (if m.len ≤ cache.size ∧ m.len ≤ u32Max ∧
          cache.queue.length < loaderQueueCapacity
       then cache.queue ++ [path] else cache.queue) := by
  unfold CachedNamedFile.open_with_cache at h
  split at h
  · rename_i cnt hget
    split at h
    · cases h
      cases hdisk
    · exact (openAndSchedule_spec h).2.2.2
  · exact (openAndSchedule_spec h).2.2.2

def metaC6 : Meta := ⟨100, none, false⟩

def cacheC6 : FileCache := ⟨[], List.replicate 500 "q", 10485760⟩

set_option maxRecDepth 8000 in
theorem open_with_cache_enqueue_counterexample :
    ¬ (((CachedNamedFile.open_with_cache "p" metaC6 cacheC6
          (fun _ => true)).map (fun rc => rc.2.queue) =
        Except.ok (cacheC6.queue ++ ["p"])) ↔
      (metaC6.len ≤ cacheC6.size ∧ metaC6.len ≤ u32Max)) := by
  decide

theorem open_with_cache_enqueue_witness :
    FileCache.queue ⟨[], ["p"], 10485760⟩ =
      (if metaC6.len ≤ FileCache.size ⟨[], [], 10485760⟩ ∧ metaC6.len ≤ u32Max ∧
          (FileCache.queue ⟨[], [], 10485760⟩).length < loaderQueueCapacity
       then FileCache.queue ⟨[], [], 10485760⟩ ++ ["p"]
       else FileCache.queue ⟨[], [], 10485760⟩) :=
  open_with_cache_enqueue "p" metaC6 ⟨[], [], 10485760⟩ (fun _ => true)
    (CachedNamedFile.file "p" metaC6) ⟨[], ["p"], 10485760⟩
    (by decide) (by decide)

/-! ## Lemmas about the metrics aggregator -/

theorem madd_default (a : Metrics) : a.add Metrics.default = a := by
  cases a
  simp [Metrics.add, Metrics.default]

theorem default_madd (a : Metrics) : Metrics.default.add a = a := by
  cases a
  simp [Metrics.add, Metrics.default]

theorem madd_assoc (a b c : Metrics) :
    (a.add b).add c = a.add (b.add c) := by
  cases a; cases b; cases c
  simp [Metrics.add, Nat.add_assoc]

theorem madd_right_comm (a b c : Metrics) :
    (a.add b).add c = (a.add c).add b := by
  cases a; cases b; cases c
  simp [Metrics.add]
  omega

/-- Metrics worth `v` when the condition holds, zero otherwise. -/
def mif (c : Prop) [Decidable c] (v : Metrics) : Metrics :=
  if c then v else Metrics.default

theorem add_mif (x v : Metrics) (c : Prop) [Decidable c] :
    (if c then x.add v else x) = x.add (mif c v) := by
  by_cases h : c <;> simp [mif, h, madd_default]

theorem statGet_addTo (map : List (StatKey × Metrics)) (k : StatKey)
    (v : Metrics) (k' : StatKey) :
    statGet (addTo map k v) k' =
      (if k' = k then (statGet map k').add v else statGet map k') := by
  induction map with
  | nil =>
    by_cases h : k' = k
    · subst h
      simp [addTo, statGet, default_madd]
    · have h2 : ¬ k = k' := fun hc => h hc.symm
      simp [addTo, statGet, h, h2]
  | cons e rest ih =>
    obtain ⟨k1, v1⟩ := e
    by_cases he : k1 = k
    · subst he
      by_cases h : k' = k1
      · subst h
        simp [addTo, statGet]
      · have h2 : ¬ k1 = k' := fun hc => h hc.symm
        simp [addTo, statGet, h, h2]
    · by_cases hk : k1 = k'
      · subst hk
        simp [addTo, statGet, he]
      · simp [addTo, statGet, he, hk, ih]

/-- The metrics contributed by one drained record to the entry `k`:
the per-object rollup and the global rollup when `model` is present with a
legal key, the global entry alone when `model` is absent (the object having
been discarded by `rec.key.object.take()`). -/
def contribution (rec : Record) (k : StatKey) : Metrics :=
  if rec.key.model.isSome then
    if rec.key.object.isNone then Metrics.default
    else
      ((mif (k = ⟨rec.key.object, none⟩) rec.metrics).add
        (mif (k = StatKey.default) rec.metrics)).add
        (mif (k = rec.key) rec.metrics)
  else mif (k = StatKey.default) rec.metrics

/-- Observable effect of `StatTable::insert` on every entry. -/
theorem statGet_insert (map : List (StatKey × Metrics)) (rec : Record)
    (k : StatKey) :
    statGet (StatTable.insert map rec) k =
      (statGet map k).add (contribution rec k) := by
  unfold StatTable.insert contribution
  by_cases hm : rec.key.model.isSome
  · by_cases ho : rec.key.object.isNone
    · simp [hm, ho, madd_default]
    · have ho' : rec.key.object.isSome = true := by
        cases hobj : rec.key.object
        · simp [hobj] at ho
        · simp
      simp only [hm, ho, ho', if_true, Bool.false_eq_true, if_false]
      rw [statGet_addTo, statGet_addTo, statGet_addTo]
      rw [add_mif, add_mif, add_mif]
      simp [madd_assoc]
  · have hm' : rec.key.model = none := Option.not_isSome_iff_eq_none.mp hm
    simp only [hm, Bool.false_eq_true, if_false]
    rw [statGet_addTo, add_mif]
    simp [hm', StatKey.default]

theorem leafSum_addTo (map : List (StatKey × Metrics)) (k : StatKey)
    (v : Metrics) :
    leafSum (addTo map k v) =
      (if k.object.isSome && k.model.isSome then (leafSum map).add v
       else leafSum map) := by
  induction map with
  | nil =>
    by_cases h : k.object.isSome && k.model.isSome
    · simp [addTo, leafSum, msum, h, madd_default, default_madd]
    · simp [addTo, leafSum, msum, h]
  | cons e rest ih =>
    by_cases he : e.1 = k
    · by_cases h : k.object.isSome && k.model.isSome
      · subst he
        simp [addTo, leafSum, msum, h, madd_right_comm]
      · subst he
        simp [addTo, leafSum, msum, h]
    · by_cases hl : e.1.object.isSome && e.1.model.isSome
      · by_cases h : k.object.isSome && k.model.isSome
        · simp [addTo, leafSum, msum, he, hl, h] at ih ⊢
          rw [ih, ← madd_assoc, madd_right_comm, madd_assoc]
        · simp [addTo, leafSum, msum, he, hl, h] at ih ⊢
          rw [ih]
      · by_cases h : k.object.isSome && k.model.isSome
        · simp [addTo, leafSum, msum, he, hl, h] at ih ⊢
          rw [ih]
        · simp [addTo, leafSum, msum, he, hl, h] at ih ⊢
          rw [ih]

theorem objSum_addTo (map : List (StatKey × Metrics)) (k : StatKey)
    (v : Metrics) (o : String) :
    objSum (addTo map k v) o =
      (if k.object = some o && k.model.isSome then (objSum map o).add v
       else objSum map o) := by
  induction map with
  | nil =>
    by_cases h : k.object = some o && k.model.isSome
    · simp [addTo, objSum, msum, h, madd_default, default_madd]
    · simp [addTo, objSum, msum, h]
  | cons e rest ih =>
    by_cases he : e.1 = k
    · by_cases h : k.object = some o && k.model.isSome
      · subst he
        simp [addTo, objSum, msum, h, madd_right_comm]
      · subst he
        simp [addTo, objSum, msum, h]
    · by_cases hl : e.1.object = some o && e.1.model.isSome
      · by_cases h : k.object = some o && k.model.isSome
        · simp [addTo, objSum, msum, he, hl, h] at ih ⊢
          rw [ih, ← madd_assoc, madd_right_comm, madd_assoc]
        · simp [addTo, objSum, msum, he, hl, h] at ih ⊢
          rw [ih]
      · by_cases h : k.object = some o && k.model.isSome
        · simp [addTo, objSum, msum, he, hl, h] at ih ⊢
          rw [ih]
        · simp [addTo, objSum, msum, he, hl, h] at ih ⊢
          rw [ih]

/-- The rollup coherence invariant of the stat table: the global entry
equals the sum of all leaf entries, and every per-object entry equals the
sum of the leaf entries of that object. -/
def StatInv (map : List (StatKey × Metrics)) : Prop :=
  statGet map StatKey.default = leafSum map ∧
  ∀ o, statGet map ⟨some o, none⟩ = objSum map o

theorem statInv_nil : StatInv [] :=
  ⟨rfl, fun _ => rfl⟩

theorem statInv_insert {map : List (StatKey × Metrics)} (rec : Record)
    (hinv : StatInv map) (ho : rec.key.object.isSome)
    (hm : rec.key.model.isSome) : StatInv (StatTable.insert map rec) := by
  obtain ⟨o, hobj⟩ := Option.isSome_iff_exists.mp ho
  obtain ⟨mn, hmod⟩ := Option.isSome_iff_exists.mp hm
  have hkey : rec.key = ⟨some o, some mn⟩ := by
    cases hk : rec.key
    simp only [hk] at hobj hmod
    simp [hobj, hmod]
  unfold StatTable.insert
  rw [hkey]
  simp only [Option.isSome_some, Option.isNone_some, if_true, if_false,
    Bool.false_eq_true]
  have hglobal : statGet map (⟨none, none⟩ : StatKey) = leafSum map := hinv.1
  constructor
  · rw [statGet_addTo, statGet_addTo, statGet_addTo]
    rw [leafSum_addTo, leafSum_addTo, leafSum_addTo]
    simp [StatKey.default, hglobal]
  · intro o'
    have hobj' : statGet map (⟨some o', none⟩ : StatKey) = objSum map o' :=
      hinv.2 o'
    rw [statGet_addTo, statGet_addTo, statGet_addTo]
    rw [objSum_addTo, objSum_addTo, objSum_addTo]
    by_cases ho' : o' = o
    · subst ho'
      simp [StatKey.default, hobj']
    · have h1 : (⟨some o', none⟩ : StatKey) ≠ ⟨some o, none⟩ := by
        simp [ho']

      have h2 : ¬ (some o = some o') := by
        intro hc
        exact ho' (Option.some.inj hc).symm
      simp [StatKey.default, h1, h2, hobj']

theorem statInv_drainAll (recs : List Record) (map : List (StatKey × Metrics))
    (hmap : StatInv map)
    (hall : ∀ r ∈ recs, r.key.object.isSome ∧ r.key.model.isSome) :
    StatInv (drainAll map recs) := by
  induction recs generalizing map with
  | nil => exact hmap
  | cons r rest ih =>
    have hr := hall r (List.mem_cons_self r rest)
    exact ih (StatTable.insert map r)
      (statInv_insert r hmap hr.1 hr.2)
      (fun r' hr' => hall r' (List.mem_cons_of_mem r hr'))

/-! ## Claims about the metrics aggregator -/

/-- **C2 counterexample.** Draining the record with key
`(object = Some "o", name = None)` into an empty table does *not* add the
metrics to the entry `(Some "o", None)`: that entry stays at zero metrics,
refuting the claimed leaf update for records whose `name` is absent. -/
theorem stat_insert_object_counterexample :
    statGet (StatTable.insert [] ⟨⟨some "o", none⟩, ⟨1, 1000⟩⟩)
        ⟨some "o", none⟩ ≠
      Metrics.default.add ⟨1, 1000⟩ := by
  decide

/-- **C2 (amended).** For every record `(key, metrics)` drained by
`StatTable::insert`: if `key.name` is present and `key.object` absent the
record is dropped (no entry changes); if both are present, `metrics` is
added to `(object, None)`, to `(None, None)` and to the leaf `key`;
if `key.name` is absent, `key.object` is discarded before the leaf update
(`rec.key.object.take()`), so `metrics` is added only to `(None, None)` and
the per-object entry is unchanged. -/
theorem stat_insert_effect (map : List (StatKey × Metrics)) (rec : Record)
    (k : StatKey) :
    statGet (StatTable.insert map rec) k =
      (statGet map k).add (contribution rec k) :=
  statGet_insert map rec k

/-- **C7.** A record whose key has `object = None` and `name = Some` is
rejected by `StatTable::insert` and the table is left completely unchanged:
no entry — leaf, per-object or global — is created or modified. -/
theorem stat_insert_illegal (map : List (StatKey × Metrics)) (rec : Record)
    (hobj : rec.key.object = none) (hmod : rec.key.model.isSome = true) :
    StatTable.insert map rec = map := by
  unfold StatTable.insert
  simp [hmod, hobj]

theorem stat_insert_illegal_witness :
    StatTable.insert [(StatKey.default, ⟨3, 30⟩)] ⟨⟨none, some "m"⟩, ⟨1, 1000⟩⟩ =
      [(StatKey.default, ⟨3, 30⟩)] :=
  stat_insert_illegal [(StatKey.default, ⟨3, 30⟩)] ⟨⟨none, some "m"⟩, ⟨1, 1000⟩⟩
    rfl rfl

/-- **C10.** When `StatTable::insert` ingests a record with key
`(object = Some o, name = None)`, the object is discarded before the leaf
update: the metrics are added exactly to the global entry `(None, None)`,
and every other entry — in particular the per-object entry
`(Some o, None)` — is unchanged by that insert. -/
theorem stat_insert_take_object (map : List (StatKey × Metrics)) (o : String)
    (v : Metrics) (k : StatKey) :
    statGet (StatTable.insert map ⟨⟨some o, none⟩, v⟩) k =
      (if k = StatKey.default then (statGet map k).add v else statGet map k) := by
  rw [statGet_insert]
  unfold contribution
  by_cases h : k = StatKey.default <;> simp [h, mif, madd_default]

/-- **C3 counterexample.** The rollup identity fails for a drained sequence
containing the single record `((Some "o", None), (1, 1000))`: the global
entry receives the metrics but no leaf entry exists, so
`get((None,None)) ≠ sum of leaf entries`. -/
theorem stat_rollup_counterexample :
    ¬ (statGet (drainAll [] [⟨⟨some "o", none⟩, ⟨1, 1000⟩⟩]) StatKey.default =
        leafSum (drainAll [] [⟨⟨some "o", none⟩, ⟨1, 1000⟩⟩]) ∧
      ∀ o, statGet (drainAll [] [⟨⟨some "o", none⟩, ⟨1, 1000⟩⟩])
          ⟨some o, none⟩ =
        objSum (drainAll [] [⟨⟨some "o", none⟩, ⟨1, 1000⟩⟩]) o) :=
  fun h => absurd h.1 (by decide)

/-- **C3 (amended).** For every finite sequence of metric records whose
keys all have both `object` and `model` present (the shape produced by the
tile endpoint), after fully draining the sequence into an empty table the
stored rollups satisfy: the global entry `(None, None)` equals the sum of
the stored leaf entries, and for every object `o` the entry `(Some o, None)`
equals the sum of the stored leaf entries of that object. -/
theorem stat_rollup_invariant (recs : List Record)
    (hall : ∀ r ∈ recs, r.key.object.isSome ∧ r.key.model.isSome) :
    statGet (drainAll [] recs) StatKey.default = leafSum (drainAll [] recs) ∧
    ∀ o, statGet (drainAll [] recs) ⟨some o, none⟩ =
      objSum (drainAll [] recs) o :=
  statInv_drainAll recs [] statInv_nil hall

theorem stat_rollup_invariant_witness :
    statGet (drainAll [] [⟨⟨some "a", some "b"⟩, ⟨1, 10⟩⟩,
        ⟨⟨some "a", some "c"⟩, ⟨2, 20⟩⟩]) StatKey.default =
      leafSum (drainAll [] [⟨⟨some "a", some "b"⟩, ⟨1, 10⟩⟩,
        ⟨⟨some "a", some "c"⟩, ⟨2, 20⟩⟩]) :=
  (stat_rollup_invariant [⟨⟨some "a", some "b"⟩, ⟨1, 10⟩⟩,
      ⟨⟨some "a", some "c"⟩, ⟨2, 20⟩⟩] (by decide)).1

/-! ## Claims about the metadata cache and the authority lookup -/

/-- **C8.** For every path, `MetaCache::metadata` returns the cached `Meta`
when an (unexpired) entry exists; otherwise it performs the filesystem
stat, inserts the result into the cache and returns it; when the stat
fails, the I/O error is propagated to the caller and the cache is left
unchanged — a failure is never cached. -/
theorem metadata_cache_behavior (cache : List (Path × Meta)) (path : Path)
    (fs : Path → Except IoError Meta) :
    (∀ m, mcGet cache path = some m →
      MetaCache.metadata cache path fs = (Except.ok m, cache)) ∧
    (mcGet cache path = none → ∀ m, fs path = Except.ok m →
      MetaCache.metadata cache path fs = (Except.ok m, mcInsert cache path m)) ∧
    (mcGet cache path = none → ∀ e, fs path = Except.error e →
      MetaCache.metadata cache path fs = (Except.error e, cache)) := by
  refine ⟨?_, ?_, ?_⟩
  · intro m hm
    unfold MetaCache.metadata
    rw [hm]
  · intro hnone m hfs
    unfold MetaCache.metadata
    rw [hnone, hfs]
  · intro hnone e hfs
    unfold MetaCache.metadata
    rw [hnone, hfs]

theorem metadata_cache_behavior_witness :
    MetaCache.metadata [] "a" (fun _ => Except.error ⟨13⟩) =
      (Except.error (⟨13⟩ : IoError), []) :=
  (metadata_cache_behavior [] "a" (fun _ => Except.error ⟨13⟩)).2.2 rfl
    ⟨13⟩ rfl

/-- **C4.** For every access key and transport outcome, the verdict of
`ModelAccess::check_remote` is `Granted` exactly when the HTTP response
status is `200 OK`; any other successful status yields `Denied`, and a
transport error or the 5-second timeout also yields `Denied` — the verdict
is always one of the two modes and no error is propagated to the caller. -/
theorem check_remote_verdict (cfg : AccessConfig) (key : AccessKey)
    (send : String → Option String → SendResult) :
    (ModelAccess.check_remote cfg key send = AccessMode.Granted ↔
      send (requestUrl cfg key) (cookieHeader cfg key) =
        SendResult.ok statusOk) ∧
    (ModelAccess.check_remote cfg key send = AccessMode.Granted ∨
      ModelAccess.check_remote cfg key send = AccessMode.Denied) := by
  unfold ModelAccess.check_remote
  cases h : send (requestUrl cfg key) (cookieHeader cfg key) with
  | ok status =>
    by_cases hs : status = statusOk
    · subst hs
      simp
    · simp [hs]
  | transportError => simp
  | timeout => simp

/-- **C9.** The `tileset` endpoint submits a metrics record only when the
file open succeeds: a request answered `403` (access denied) or `404`
(open failed) sends nothing on the metrics channel, and whenever a record
is sent the response is the served file, carrying
`(hits = 1, cached = is_cached, bytes = len)` for the requested
object/model. -/
theorem tileset_metrics_on_success (object model : String)
    (accessMode : AccessMode) (openResult : Except IoError CachedNamedFile)
    (maxAge : Nat) :
    ((tileset object model accessMode openResult maxAge).1 =
        TileResponse.forbidden ∨
      (tileset object model accessMode openResult maxAge).1 =
        TileResponse.notFound →
      (tileset object model accessMode openResult maxAge).2 = []) ∧
    (accessMode = AccessMode.Denied →
      (tileset object model accessMode openResult maxAge).2 = []) ∧
    (∀ e, openResult = Except.error e →
      (tileset object model accessMode openResult maxAge).2 = []) ∧
    ((tileset object model accessMode openResult maxAge).2 ≠ [] →
      ∃ res, openResult = Except.ok res ∧
        (tileset object model accessMode openResult maxAge).1 =
          TileResponse.okFile res maxAge ∧
        (tileset object model accessMode openResult maxAge).2 =
          [⟨⟨some object, some model⟩,
            ⟨1, if res.is_cached then 1 else 0, res.meta.len⟩⟩]) := by
  cases accessMode with
  | Denied => simp [tileset]
  | Granted =>
    cases openResult with
    | error e => simp [tileset]
    | ok res =>
      refine ⟨?_, ?_, ?_, ?_⟩
      · intro hcontra
        cases hcontra with
        | inl h => cases h
        | inr h => cases h
      · intro h
        cases h
      · intro e he
        cases he
      · intro _
        exact ⟨res, rfl, rfl, rfl⟩

theorem tileset_metrics_witness :
    (tileset "alpha" "one" AccessMode.Denied
      (Except.ok (CachedNamedFile.file "x" ⟨1, none, false⟩)) 1800).2 = [] :=
  (tileset_metrics_on_success "alpha" "one" AccessMode.Denied
    (Except.ok (CachedNamedFile.file "x" ⟨1, none, false⟩)) 1800).2.1 rfl

/-! ## The single-flight invariant of the decision cache -/

/-- Inductive invariant of the per-key single-flight protocol: a load is in
flight only while the store has no entry; the number of authority requests
is 1 exactly when a load is or was in flight (entry present), 0 before; and
a caller is done only with the verdict stored for the key. -/
def SFInv {n : Nat} (s : SFState n) : Prop :=
  (s.loading = true → s.entry = none) ∧
  s.requests = (if s.loading = true ∨ s.entry.isSome then 1 else 0) ∧
  (∀ i v, s.callers i = CallerSt.done v → s.entry = some v)

theorem sfInv_init (n : Nat) : SFInv (SFState.init n) := by
  refine ⟨?_, ?_, ?_⟩ <;> simp [SFState.init]

theorem sfInv_step {n : Nat} {s s' : SFState n} (h : SFStep s s')
    (hinv : SFInv s) : SFInv s' := by
  obtain ⟨hload, hreq, hdone⟩ := hinv
  cases h with
  | hit i v hidle hentry =>
    refine ⟨hload, hreq, ?_⟩
    intro j w hj
    dsimp only at hj ⊢
    by_cases hji : j = i
    · subst hji
      rw [Function.update_same] at hj
      cases hj
      exact hentry
    · rw [Function.update_noteq hji] at hj
      exact hdone j w hj
  | joinWait i hidle hentry hloading =>
    refine ⟨hload, hreq, ?_⟩
    intro j w hj
    dsimp only at hj ⊢
    by_cases hji : j = i
    · subst hji
      rw [Function.update_same] at hj
      cases hj
    · rw [Function.update_noteq hji] at hj
      exact hdone j w hj
  | lead i hidle hentry hloading =>
    refine ⟨fun _ => hentry, ?_, ?_⟩
    · have h0 : s.requests = 0 := by
        rw [hreq, hloading, hentry]
        simp
      dsimp only
      rw [hentry, h0]
      simp
    · intro j w hj
      dsimp only at hj ⊢
      by_cases hji : j = i
      · subst hji
        rw [Function.update_same] at hj
        cases hj
      · rw [Function.update_noteq hji] at hj
        have hd := hdone j w hj
        rw [hentry] at hd
        cases hd
  | complete v hloading =>
    have hent : s.entry = none := hload hloading
    refine ⟨?_, ?_, ?_⟩
    · intro hc
      cases hc
    · have h1 : s.requests = 1 := by
        rw [hreq, hloading]
        simp
      dsimp only
      rw [h1]
      simp
    · intro j w hj
      dsimp only at hj ⊢
      by_cases hw : s.callers j = CallerSt.waiting
      · rw [if_pos hw] at hj
        cases hj
        rfl
      · rw [if_neg hw] at hj
        have hd := hdone j w hj
        rw [hent] at hd
        cases hd

theorem sfInv_reachable {n : Nat} {s : SFState n} (h : SFReachable s) :
    SFInv s := by
  induction h with
  | init => exact sfInv_init n
  | step _ hs ih => exact sfInv_step hs ih

/-- **C5.** In every state reachable by concurrent calls to `check(key)`
for one key starting with no store entry: at most one authority request has
been issued; once any caller has received a verdict, exactly one request
was issued and every caller that completed received that same verdict; and
any step taken while an unexpired entry exists issues no network call. -/
theorem check_single_flight {n : Nat} (s : SFState n) (h : SFReachable s) :
    s.requests ≤ 1 ∧
    ((∃ i v, s.callers i = CallerSt.done v) → s.requests = 1) ∧
    (∀ i j v w, s.callers i = CallerSt.done v →
      s.callers j = CallerSt.done w → v = w) ∧
    (∀ s', SFStep s s' → s.entry.isSome → s'.requests = s.requests) := by
  obtain ⟨hload, hreq, hdone⟩ := sfInv_reachable h
  refine ⟨?_, ?_, ?_, ?_⟩
  · rw [hreq]
    split <;> omega
  · rintro ⟨i, v, hi⟩
    have hent := hdone i v hi
    rw [hreq, hent]
    simp
  · intro i j v w hi hj
    have h1 := hdone i v hi
    have h2 := hdone j w hj
    rw [h1] at h2
    exact Option.some.inj h2
  · intro s' hstep hsome
    cases hstep with
    | hit => rfl
    | joinWait i h1 h2 h3 => rfl
    | lead i h1 h2 h3 =>
      rw [h2] at hsome
      simp at hsome
    | complete => rfl

theorem check_single_flight_witness :
    SFState.requests
      { entry := none, loading := true,
        callers := Function.update (SFState.init 2).callers 0 CallerSt.waiting,
        requests := (SFState.init 2).requests + 1 } ≤ 1 :=
  (check_single_flight
    { entry := none, loading := true,
      callers := Function.update (SFState.init 2).callers 0 CallerSt.waiting,
      requests := (SFState.init 2).requests + 1 }
    (SFReachable.step SFReachable.init
      (SFStep.lead (SFState.init 2) 0 rfl rfl rfl))).1

end RTiles
